import Mathlib

/-!
Verification of the global hotkey management subsystem of a two-surface
desktop application (main.js).  The subsystem keeps a process-wide table
`registeredHotkeys` mapping accelerator strings to action names, mirrors it
against the operating system's global-shortcut table, translates
human-readable hotkey strings into the OS accelerator grammar, and relays
opaque overlay commands between the two UI surfaces.

The embedding is shallow and executable:

* the JS object `registeredHotkeys` is an association list with unique keys
  (`objGet` / `objSet` / `objDelete` mirror property read, property
  assignment and `delete`); JS truthiness of a looked-up value is `truthy`
  (`undefined` and the empty string are falsy);
* the OS global-shortcut table is the list `osRegs`; `globalShortcut.register`
  succeeds exactly when the accelerator is neither claimed by another
  application (`Env.claimed`) nor already present in the table — Chromium's
  `GlobalShortcutListener::RegisterAccelerator` returns `false` for an
  accelerator that is already registered — and `globalShortcut.unregister`
  of an absent accelerator is a no-op;
* a registration attempt that throws is modelled by the environment set
  `Env.throwing`; window liveness (`win && !win.isDestroyed()`) by the
  booleans `Env.controlLive` / `Env.graphicsLive`;
* every `webContents.send` that actually happens is appended to the `sent`
  log, so "exactly one notification" is a statement about that list;
* `String.replace(regexp, _)` with a literal pattern is the leftmost,
  non-overlapping, global replacement `replaceAllSub`; the final
  `.replace` of the whitespace class with the empty string is `stripWs`.
-/

/-- Environment of one registration attempt or send: which accelerators the
OS refuses because another application holds them, which make the OS call
throw, and whether each UI surface exists and is not destroyed. -/
structure Env where
  claimed : List String
  throwing : List String
  controlLive : Bool
  graphicsLive : Bool
deriving DecidableEq

/-- A message delivered by `webContents.send` to one of the two surfaces. -/
inductive Msg where
  | hotkeyMode (accelerator action : String)
  | graphicCommand (command : String)
  | globalHotkeyTriggered (action : String)
deriving DecidableEq

/-- The mutable state of the main process: the bookkeeping object
`registeredHotkeys`, the OS global-shortcut table, and the log of messages
actually delivered to a live surface. -/
structure St where
  registeredHotkeys : List (String × String)
  osRegs : List String
  sent : List Msg
deriving DecidableEq

/-- Property read `m[k]` on a JS object modelled as an association list. -/
def objGet (m : List (String × String)) (k : String) : Option String :=
  match m with
  | [] => none
  | p :: rest => if p.1 = k then some p.2 else objGet rest k

/-- Property assignment `m[k] = v`: overwrite in place if the key exists,
append otherwise (JS objects keep insertion order of string keys). -/
def objSet (m : List (String × String)) (k v : String) : List (String × String) :=
  match m with
  | [] => [(k, v)]
  | p :: rest => if p.1 = k then (k, v) :: rest else p :: objSet rest k v

/-- The JS `delete m[k]`. -/
def objDelete (m : List (String × String)) (k : String) : List (String × String) :=
  m.filter (fun p => p.1 != k)

/-- `Object.keys`. -/
def keys (m : List (String × String)) : List String :=
  m.map Prod.fst

/-- JS truthiness of `registeredHotkeys[accelerator]`: `undefined` and the
empty string are falsy, every other string is truthy. -/
def truthy : Option String → Bool
  | none => false
  | some s => s != ""

/-- Characters matched by the regular-expression whitespace class, as far as
the hotkey strings of this application use them. -/
def isJsWs (c : Char) : Bool :=
  c == ' ' || c == '\t' || c == '\n' || c == '\r' || c == '\x0b' || c == '\x0c'

/-- The final `.replace` of the whitespace class with the empty string:
removing every maximal whitespace run is removing every whitespace
character. -/
def stripWs (l : List Char) : List Char :=
  l.filter (fun c => !(isJsWs c))

/-- Leftmost, non-overlapping, global replacement of `pat` by `rep`, with
fuel; one unit of fuel is spent per consumed position, and a nonempty
pattern consumes at least one character per step, so fuel equal to the
length of the input suffices. -/
def replAux (pat rep : List Char) : Nat → List Char → List Char
  | 0, l => l
  | _ + 1, [] => []
  | fuel + 1, c :: cs =>
    if pat.isPrefixOf (c :: cs) then
      rep ++ replAux pat rep fuel (List.drop pat.length (c :: cs))
    else
      c :: replAux pat rep fuel cs

/-- `String.replace(/pat/g, rep)` for a literal pattern. -/
def replaceAllSub (pat rep l : List Char) : List Char :=
  replAux pat rep l.length l

/-- `convertToElectronAccelerator`: `null` for an absent or empty hotkey
string, otherwise the four chained replacements of the source in order. -/
def convertToElectronAccelerator : Option String → Option String
  | none => none
  | some s =>
    if s = "" then none
    else
      some (String.mk (stripWs (replaceAllSub (" + ".data) ("+".data)
        (replaceAllSub ("Meta".data) ("Super".data)
          (replaceAllSub ("Ctrl".data) ("CommandOrControl".data) s.data)))))

/-- The head of `registerGlobalHotkey`: if the accelerator already has a
truthy bookkeeping entry, release its OS registration first. -/
def unregisterIfBound (accelerator : String) (st : St) : St :=
  if truthy (objGet st.registeredHotkeys accelerator) then
    { st with osRegs := st.osRegs.filter (fun a => a != accelerator) }
  else st

/-- `registerGlobalHotkey(accelerator, action)`: release a previous OS
registration of the same accelerator, then attempt the OS registration.
On success the binding is stored and the accelerator enters the OS table;
on failure the binding is still stored and a `hotkey-mode` fallback
notification goes to the control surface if it is live; if the OS call
throws, the catch block stores the binding and nothing else happens. -/
def registerGlobalHotkey (env : Env) (accelerator action : String) (st : St) : St :=
  let st1 := unregisterIfBound accelerator st
  if accelerator ∈ env.throwing then
    { st1 with registeredHotkeys := objSet st1.registeredHotkeys accelerator action }
  else if accelerator ∈ env.claimed ∨ accelerator ∈ st1.osRegs then
    { st1 with
        registeredHotkeys := objSet st1.registeredHotkeys accelerator action,
        sent :=
          if env.controlLive then st1.sent ++ [Msg.hotkeyMode accelerator action]
          else st1.sent }
  else
    { st1 with
        registeredHotkeys := objSet st1.registeredHotkeys accelerator action,
        osRegs := st1.osRegs ++ [accelerator] }

/-- `unregisterGlobalHotkey(accelerator)`: a no-op unless the accelerator
has a truthy bookkeeping entry; otherwise release the OS registration and
delete the entry. -/
def unregisterGlobalHotkey (accelerator : String) (st : St) : St :=
  if truthy (objGet st.registeredHotkeys accelerator) then
    { st with
        osRegs := st.osRegs.filter (fun a => a != accelerator),
        registeredHotkeys := objDelete st.registeredHotkeys accelerator }
  else st

/-- The body of the OS trigger callback installed by a successful
registration: deliver the captured action to the control surface if it is
live. -/
def hotkeyTriggeredCallback (env : Env) (action : String) (st : St) : St :=
  if env.controlLive then
    { st with sent := st.sent ++ [Msg.globalHotkeyTriggered action] }
  else st

/-- The `register-all-hotkeys` handler: release the OS registration of every
bookkeeping key, reset the bookkeeping object, then walk the
action-to-hotkey pairs in order, skipping falsy hotkey strings and
registering the translated accelerator of every other pair. -/
def registerAllHotkeys (env : Env) (hotkeys : List (String × String)) (st : St) : St :=
  let cleared : St :=
    { st with
        osRegs := st.osRegs.filter (fun a => !((keys st.registeredHotkeys).contains a)),
        registeredHotkeys := [] }
  hotkeys.foldl
    (fun s p =>
      if p.2 = "" then s
      else
        match convertToElectronAccelerator (some p.2) with
        | some electronAccelerator => registerGlobalHotkey env electronAccelerator p.1 s
        | none => s)
    cleared

/-- The deferred post-startup pass: snapshot the bookkeeping, reset it, and
push every snapshotted binding back through `registerGlobalHotkey`. -/
def reregistrationPass (env : Env) (st : St) : St :=
  let currentHotkeys := st.registeredHotkeys
  let st1 : St := { st with registeredHotkeys := [] }
  currentHotkeys.foldl (fun s p => registerGlobalHotkey env p.1 p.2 s) st1

/-- The shutdown handlers (`window-all-closed`, `will-quit`): they call
`globalShortcut.unregisterAll()` and touch nothing else. -/
def unregisterAllShutdown (st : St) : St :=
  { st with osRegs := [] }

/-- The `graphic-command` handler: forward the command to the graphics
surface when it exists and is not destroyed, otherwise do nothing. -/
def relayGraphicCommand (env : Env) (command : String) (st : St) : St :=
  if env.graphicsLive then
    { st with sent := st.sent ++ [Msg.graphicCommand command] }
  else st

/-- The `register-hotkey` handler: translate, then register unless the
translation is `null`. -/
def onRegisterHotkey (env : Env) (accelerator action : String) (st : St) : St :=
  match convertToElectronAccelerator (some accelerator) with
  | some electronAccelerator => registerGlobalHotkey env electronAccelerator action st
  | none => st

/-- The `unregister-hotkey` handler: translate, then unregister unless the
translation is `null`. -/
def onUnregisterHotkey (accelerator : String) (st : St) : St :=
  match convertToElectronAccelerator (some accelerator) with
  | some electronAccelerator => unregisterGlobalHotkey electronAccelerator st
  | none => st

/-- Does `l` contain `pat` as a contiguous substring? -/
def containsSub (pat : List Char) : List Char → Bool
  | [] => pat.isEmpty
  | c :: cs => pat.isPrefixOf (c :: cs) || containsSub pat cs

/-- The freshly started process: empty bookkeeping, empty OS table, nothing
sent. -/
def st0 : St := ⟨[], [], []⟩

/-- A nominal environment: the OS grants every registration and both
surfaces are live. -/
def env0 : Env := ⟨[], [], true, true⟩

/-- An environment where the OS call for accelerator `A` throws. -/
def envThrow : Env := ⟨[], ["A"], true, true⟩

/-- An environment where another application already claims accelerator
`A`, so the OS denies its registration. -/
def envFail : Env := ⟨["A"], [], true, true⟩

/-- An environment where both surfaces are destroyed. -/
def envDead : Env := ⟨[], [], false, false⟩

/-- States reachable from startup by the registry operations named in the
uniqueness claim: single registration, single unregistration, bulk
replacement and the deferred re-registration pass, each under an arbitrary
per-step environment. -/
inductive Reachable : St → Prop where
  | init : Reachable st0
  | register (env : Env) (accelerator action : String) {st : St} :
      Reachable st → Reachable (registerGlobalHotkey env accelerator action st)
  | unregister (accelerator : String) {st : St} :
      Reachable st → Reachable (unregisterGlobalHotkey accelerator st)
  | registerAll (env : Env) (hotkeys : List (String × String)) {st : St} :
      Reachable st → Reachable (registerAllHotkeys env hotkeys st)
  | rereg (env : Env) {st : St} :
      Reachable st → Reachable (reregistrationPass env st)

/-- The structural invariant of the embedding: the bookkeeping object has
no duplicate keys and the OS table lists each accelerator at most once. -/
def RegInv (st : St) : Prop :=
  (keys st.registeredHotkeys).Nodup ∧ st.osRegs.Nodup

theorem keys_cons (p : String × String) (rest : List (String × String)) :
    keys (p :: rest) = p.1 :: keys rest := rfl

theorem mem_keys_cons {k : String} {p : String × String} {rest : List (String × String)} :
    k ∈ keys (p :: rest) ↔ p.1 = k ∨ k ∈ keys rest := by
  rw [keys_cons]
  constructor
  · intro h
    rcases List.mem_cons.mp h with h1 | h2
    · exact Or.inl h1.symm
    · exact Or.inr h2
  · intro h
    rcases h with h1 | h2
    · subst h1
      exact List.mem_cons_self _ _
    · exact List.mem_cons_of_mem _ h2

theorem objGet_objSet_self (m : List (String × String)) (k v : String) :
    objGet (objSet m k v) k = some v := by
  induction m with
  | nil => simp [objSet, objGet]
  | cons p rest ih =>
    by_cases h : p.1 = k
    · simp [objSet, h, objGet]
    · simp [objSet, h, objGet, ih]

theorem objGet_objSet_ne (m : List (String × String)) (k k' v : String) (h : k' ≠ k) :
    objGet (objSet m k v) k' = objGet m k' := by
  have hkk : ¬ k = k' := Ne.symm h
  induction m with
  | nil => simp [objSet, objGet, hkk]
  | cons p rest ih =>
    by_cases hp : p.1 = k
    · have hp' : ¬ p.1 = k' := by rw [hp]; exact hkk
      simp [objSet, hp, objGet, hkk, hp']
    · simp [objSet, hp, objGet, ih]

theorem objGet_objDelete_ne (m : List (String × String)) (k k' : String) (h : k' ≠ k) :
    objGet (objDelete m k) k' = objGet m k' := by
  induction m with
  | nil => simp [objDelete, objGet]
  | cons p rest ih =>
    by_cases hp : p.1 = k
    · have hb : (p.1 != k) = false := by simp [hp]
      have hp' : ¬ p.1 = k' := by rw [hp]; exact Ne.symm h
      simpa [objDelete, List.filter_cons, hb, objGet, hp'] using ih
    · have hb : (p.1 != k) = true := by simp [hp]
      by_cases hk' : p.1 = k'
      · simp [objDelete, List.filter_cons, hb, objGet, hk', h]
      · simpa [objDelete, List.filter_cons, hb, objGet, hk'] using ih

theorem mem_keys_objSet_self (m : List (String × String)) (k v : String) :
    k ∈ keys (objSet m k v) := by
  induction m with
  | nil =>
    simp only [objSet, keys_cons]
    exact List.mem_cons_self _ _
  | cons p rest ih =>
    by_cases h : p.1 = k
    · simp only [objSet, if_pos h, keys_cons]
      exact List.mem_cons_self _ _
    · simp only [objSet, if_neg h, keys_cons]
      exact List.mem_cons_of_mem _ ih

theorem keys_objSet_mem (m : List (String × String)) (k v : String) (h : k ∈ keys m) :
    keys (objSet m k v) = keys m := by
  induction m with
  | nil => exact absurd h (by simp [keys])
  | cons p rest ih =>
    by_cases hp : p.1 = k
    · have he : objSet (p :: rest) k v = (k, v) :: rest := by simp [objSet, hp]
      rw [he, keys_cons, keys_cons]
      simp [hp]
    · have hrest : k ∈ keys rest := by
        rcases mem_keys_cons.mp h with h1 | h2
        · exact absurd h1 hp
        · exact h2
      simp only [objSet, if_neg hp, keys_cons, ih hrest]

theorem keys_objSet_not_mem (m : List (String × String)) (k v : String) (h : k ∉ keys m) :
    keys (objSet m k v) = keys m ++ [k] := by
  induction m with
  | nil => simp [objSet, keys]
  | cons p rest ih =>
    have hp : ¬ p.1 = k := fun hk => h (mem_keys_cons.mpr (Or.inl hk))
    have hrest : k ∉ keys rest := fun hk => h (mem_keys_cons.mpr (Or.inr hk))
    simp only [objSet, if_neg hp, keys_cons, ih hrest, List.cons_append]

theorem nodup_keys_objSet (m : List (String × String)) (k v : String)
    (h : (keys m).Nodup) : (keys (objSet m k v)).Nodup := by
  by_cases hk : k ∈ keys m
  · rw [keys_objSet_mem m k v hk]
    exact h
  · rw [keys_objSet_not_mem m k v hk]
    rw [List.nodup_append]
    refine ⟨h, List.nodup_singleton k, ?_⟩
    intro a ha hb
    have haeq : a = k := by simpa using hb
    exact hk (haeq ▸ ha)

theorem keys_objDelete (m : List (String × String)) (k : String) :
    keys (objDelete m k) = (keys m).filter (fun a => a != k) := by
  induction m with
  | nil => simp [objDelete, keys]
  | cons p rest ih =>
    simp only [objDelete] at ih ⊢
    rw [List.filter_cons, keys_cons, List.filter_cons]
    by_cases hp : (p.1 != k) = true
    · rw [if_pos hp, keys_cons, ih, if_pos hp]
    · rw [if_neg hp, ih, if_neg hp]

theorem unregisterIfBound_registeredHotkeys (accelerator : String) (st : St) :
    (unregisterIfBound accelerator st).registeredHotkeys = st.registeredHotkeys := by
  unfold unregisterIfBound
  split <;> rfl

theorem unregisterIfBound_sent (accelerator : String) (st : St) :
    (unregisterIfBound accelerator st).sent = st.sent := by
  unfold unregisterIfBound
  split <;> rfl

theorem register_registeredHotkeys (env : Env) (accelerator action : String) (st : St) :
    (registerGlobalHotkey env accelerator action st).registeredHotkeys
      = objSet st.registeredHotkeys accelerator action := by
  simp only [registerGlobalHotkey]
  split
  · simp [unregisterIfBound_registeredHotkeys]
  · split <;> simp [unregisterIfBound_registeredHotkeys]

theorem register_objGet_self (env : Env) (accelerator action : String) (st : St) :
    objGet (registerGlobalHotkey env accelerator action st).registeredHotkeys accelerator
      = some action := by
  rw [register_registeredHotkeys]
  exact objGet_objSet_self _ _ _

theorem register_sent_throwing (env : Env) (accelerator action : String) (st : St)
    (h : accelerator ∈ env.throwing) :
    (registerGlobalHotkey env accelerator action st).sent = st.sent := by
  simp only [registerGlobalHotkey, if_pos h]
  simp [unregisterIfBound_sent]

theorem register_inv (env : Env) (accelerator action : String) (st : St)
    (h : RegInv st) : RegInv (registerGlobalHotkey env accelerator action st) := by
  obtain ⟨hk, ho⟩ := h
  have hk1 : (keys (unregisterIfBound accelerator st).registeredHotkeys).Nodup := by
    rw [unregisterIfBound_registeredHotkeys]
    exact hk
  have ho1 : (unregisterIfBound accelerator st).osRegs.Nodup := by
    unfold unregisterIfBound
    split
    · exact ho.filter _
    · exact ho
  simp only [registerGlobalHotkey]
  split
  · exact ⟨nodup_keys_objSet _ _ _ hk1, ho1⟩
  · split
    next hfail =>
      exact ⟨nodup_keys_objSet _ _ _ hk1, ho1⟩
    next hfail =>
      refine ⟨nodup_keys_objSet _ _ _ hk1, ?_⟩
      have hnotmem : accelerator ∉ (unregisterIfBound accelerator st).osRegs :=
        fun hmem => hfail (Or.inr hmem)
      rw [List.nodup_append]
      exact ⟨ho1, List.nodup_singleton _,
        fun a ha hb => hnotmem ((List.mem_singleton.mp hb) ▸ ha)⟩

theorem unregister_inv (accelerator : String) (st : St) (h : RegInv st) :
    RegInv (unregisterGlobalHotkey accelerator st) := by
  obtain ⟨hk, ho⟩ := h
  unfold unregisterGlobalHotkey
  split
  · refine ⟨?_, ho.filter _⟩
    rw [keys_objDelete]
    exact hk.filter _
  · exact ⟨hk, ho⟩

theorem foldl_register_inv (env : Env) (hotkeys : List (String × String)) (st : St)
    (h : RegInv st) :
    RegInv (hotkeys.foldl
      (fun s p =>
        if p.2 = "" then s
        else
          match convertToElectronAccelerator (some p.2) with
          | some electronAccelerator => registerGlobalHotkey env electronAccelerator p.1 s
          | none => s) st) := by
  induction hotkeys generalizing st with
  | nil => exact h
  | cons p rest ih =>
    rw [List.foldl_cons]
    apply ih
    by_cases hp : p.2 = ""
    · simpa [hp] using h
    · simp only [if_neg hp]
      cases hcv : convertToElectronAccelerator (some p.2) with
      | none => exact h
      | some electronAccelerator => exact register_inv env electronAccelerator p.1 st h

theorem registerAll_inv (env : Env) (hotkeys : List (String × String)) (st : St)
    (h : RegInv st) : RegInv (registerAllHotkeys env hotkeys st) := by
  simp only [registerAllHotkeys]
  apply foldl_register_inv
  exact ⟨List.nodup_nil, h.2.filter _⟩

theorem rereg_foldl_inv (env : Env) (l : List (String × String)) (st : St) (h : RegInv st) :
    RegInv (l.foldl (fun s p => registerGlobalHotkey env p.1 p.2 s) st) := by
  induction l generalizing st with
  | nil => exact h
  | cons p rest ih =>
    rw [List.foldl_cons]
    exact ih _ (register_inv env p.1 p.2 st h)

theorem rereg_inv (env : Env) (st : St) (h : RegInv st) :
    RegInv (reregistrationPass env st) := by
  simp only [reregistrationPass]
  exact rereg_foldl_inv env _ _ ⟨List.nodup_nil, h.2⟩

theorem reachable_inv {st : St} (h : Reachable st) : RegInv st := by
  induction h with
  | init => exact ⟨List.nodup_nil, List.nodup_nil⟩
  | register env accelerator action _ ih => exact register_inv _ _ _ _ ih
  | unregister accelerator _ ih => exact unregister_inv _ _ ih
  | registerAll env hotkeys _ ih => exact registerAll_inv _ _ _ ih
  | rereg env _ ih => exact rereg_inv _ _ ih

theorem unregisterIfBound_of_truthy (accelerator : String) (st : St)
    (h : truthy (objGet st.registeredHotkeys accelerator) = true) :
    unregisterIfBound accelerator st
      = { st with osRegs := st.osRegs.filter (fun a => a != accelerator) } := by
  unfold unregisterIfBound
  rw [h]
  simp

theorem register_success (env : Env) (accelerator action : String) (st : St)
    (hth : accelerator ∉ env.throwing)
    (hcl : accelerator ∉ env.claimed)
    (hos : accelerator ∉ (unregisterIfBound accelerator st).osRegs) :
    registerGlobalHotkey env accelerator action st
      = { unregisterIfBound accelerator st with
            registeredHotkeys :=
              objSet (unregisterIfBound accelerator st).registeredHotkeys accelerator action,
            osRegs := (unregisterIfBound accelerator st).osRegs ++ [accelerator] } := by
  have hcond : ¬ (accelerator ∈ env.claimed ∨
      accelerator ∈ (unregisterIfBound accelerator st).osRegs) := by
    intro hor
    rcases hor with hor | hor
    · exact hcl hor
    · exact hos hor
  simp only [registerGlobalHotkey, if_neg hth, if_neg hcond]

theorem count_keys_objSet (m : List (String × String)) (k v : String)
    (h : (keys m).Nodup) : (keys (objSet m k v)).count k = 1 := by
  by_cases hk : k ∈ keys m
  · rw [keys_objSet_mem m k v hk]
    have h1 := List.nodup_iff_count_le_one.mp h k
    have h2 : 0 < (keys m).count k := List.count_pos_iff.mpr hk
    omega
  · rw [keys_objSet_not_mem m k v hk, List.count_append, List.count_eq_zero.mpr hk]
    simp [List.count_singleton]

theorem count_filter_ne_self (l : List String) (a : String) :
    (l.filter (fun x => x != a)).count a = 0 := by
  rw [List.count_eq_zero]
  intro hmem
  have h2 := (List.mem_filter.mp hmem).2
  simp at h2

theorem register_registeredHotkeys_of_empty (env : Env) (accelerator action : String)
    (st : St) (h : st.registeredHotkeys = []) :
    (registerGlobalHotkey env accelerator action st).registeredHotkeys
      = [(accelerator, action)] := by
  rw [register_registeredHotkeys, h]
  rfl

/-- Claim C1, counterexample: with the control surface live, an exception
thrown inside the OS registration attempt leaves the sent log empty — no
hotkey-mode fallback notification is delivered — while an ordinary
registration failure in the same situation delivers exactly one, so the
two outcomes are not identical. -/
theorem C1_counterexample :
    (registerGlobalHotkey envThrow "A" "act" st0).sent = [] ∧
    (registerGlobalHotkey envFail "A" "act" st0).sent = [Msg.hotkeyMode "A" "act"] ∧
    envThrow.controlLive = true := by decide

/-- Claim C1 (amended): if the OS registration attempt throws, the binding
accelerator to action is recorded in the registry bookkeeping and no error
propagates to the caller — the operation is total — but, unlike an ordinary
registration failure, no hotkey-mode fallback notification is sent to the
control surface (the sent log is unchanged). -/
theorem C1_exception_outcome (env : Env) (accelerator action : String) (st : St)
    (h : accelerator ∈ env.throwing) :
    (registerGlobalHotkey env accelerator action st).sent = st.sent ∧
    objGet (registerGlobalHotkey env accelerator action st).registeredHotkeys accelerator
      = some action :=
  ⟨register_sent_throwing env accelerator action st h,
   register_objGet_self env accelerator action st⟩

/-- Claim C1, witness: the amended statement evaluated in the concrete
throwing environment, starting from the fresh state. -/
theorem C1_witness :
    (registerGlobalHotkey envThrow "A" "act" st0).sent = [] ∧
    objGet (registerGlobalHotkey envThrow "A" "act" st0).registeredHotkeys "A"
      = some "act" :=
  C1_exception_outcome envThrow "A" "act" st0 (by decide)

/-- Claim C2, counterexample: start from the fresh state, register one
hotkey successfully, then run the shutdown handler: the OS table is
released but the registry bookkeeping is not left empty. -/
theorem C2_counterexample :
    (unregisterAllShutdown
        (registerGlobalHotkey env0 "CommandOrControl+K" "play" st0)).registeredHotkeys ≠ [] ∧
    (unregisterAllShutdown
        (registerGlobalHotkey env0 "CommandOrControl+K" "play" st0)).osRegs = [] := by
  decide

/-- Claim C2 (amended): the shutdown operation releases every OS-level
registration and a second call in a row succeeds with no error and no
state change (it is idempotent), but it leaves the registry bookkeeping
unchanged rather than empty. -/
theorem C2_shutdown (st : St) :
    (unregisterAllShutdown st).osRegs = [] ∧
    (unregisterAllShutdown st).registeredHotkeys = st.registeredHotkeys ∧
    unregisterAllShutdown (unregisterAllShutdown st) = unregisterAllShutdown st :=
  ⟨rfl, rfl, rfl⟩

/-- Claim C8: the relay forwards the command value unmodified to the
graphics surface exactly once when that surface is live, delivers nothing
when it is destroyed or absent, raises no error either way, and performs
no other effect — bookkeeping and OS table are untouched. -/
theorem C8_relay (env : Env) (command : String) (st : St) :
    (relayGraphicCommand env command st).registeredHotkeys = st.registeredHotkeys ∧
    (relayGraphicCommand env command st).osRegs = st.osRegs ∧
    (relayGraphicCommand env command st).sent
      = st.sent ++ (if env.graphicsLive then [Msg.graphicCommand command] else []) := by
  unfold relayGraphicCommand
  cases h : env.graphicsLive <;> simp [h]

/-- Claim C9: every send in the core is guarded by an immediately
preceding liveness check, so with the control surface destroyed a
registration (including its failure fallback) sends nothing and the OS
trigger callback sends nothing, and with the graphics surface destroyed
the relay sends nothing: no destroyed surface is ever dereferenced. -/
theorem C9_guarded_sends (env : Env) (st : St) (accelerator action command : String)
    (hc : env.controlLive = false) (hg : env.graphicsLive = false) :
    (registerGlobalHotkey env accelerator action st).sent = st.sent ∧
    (hotkeyTriggeredCallback env action st).sent = st.sent ∧
    (relayGraphicCommand env command st).sent = st.sent := by
  refine ⟨?_, ?_, ?_⟩
  · simp only [registerGlobalHotkey]
    split
    · simp [unregisterIfBound_sent]
    · split <;> simp [hc, unregisterIfBound_sent]
  · unfold hotkeyTriggeredCallback
    rw [hc]
    simp
  · unfold relayGraphicCommand
    rw [hg]
    simp

/-- Claim C9, witness: the guarded-send statement evaluated with both
surfaces destroyed, starting from the fresh state. -/
theorem C9_witness :
    (registerGlobalHotkey envDead "A" "act" st0).sent = [] ∧
    (hotkeyTriggeredCallback envDead "act" st0).sent = [] ∧
    (relayGraphicCommand envDead "cmd" st0).sent = [] :=
  C9_guarded_sends envDead st0 "A" "act" "cmd" rfl rfl

/-- Claim C10: registering or unregistering accelerator A leaves the
bookkeeping entry of every other accelerator unchanged, and handling a
relayed graphic command leaves the registry bookkeeping entirely
unchanged. -/
theorem C10_frame (env : Env) (st : St) (accelerator action other command : String)
    (h : other ≠ accelerator) :
    objGet (registerGlobalHotkey env accelerator action st).registeredHotkeys other
      = objGet st.registeredHotkeys other ∧
    objGet (unregisterGlobalHotkey accelerator st).registeredHotkeys other
      = objGet st.registeredHotkeys other ∧
    (relayGraphicCommand env command st).registeredHotkeys = st.registeredHotkeys := by
  refine ⟨?_, ?_, ?_⟩
  · rw [register_registeredHotkeys]
    exact objGet_objSet_ne _ _ _ _ h
  · unfold unregisterGlobalHotkey
    split
    · exact objGet_objDelete_ne _ _ _ h
    · rfl
  · unfold relayGraphicCommand
    split <;> rfl

/-- Claim C10, witness: the frame statement evaluated at two distinct
concrete accelerators from the fresh state. -/
theorem C10_witness :
    objGet (registerGlobalHotkey env0 "A" "act" st0).registeredHotkeys "B"
      = objGet st0.registeredHotkeys "B" ∧
    objGet (unregisterGlobalHotkey "A" st0).registeredHotkeys "B"
      = objGet st0.registeredHotkeys "B" ∧
    (relayGraphicCommand env0 "cmd" st0).registeredHotkeys = st0.registeredHotkeys :=
  C10_frame env0 st0 "A" "act" "B" "cmd" (by decide)

/-- Claim C3: in every state reachable by any sequence of register,
unregister, bulk replacement and the deferred post-startup
re-registration pass, each accelerator has at most one registry binding
and at most one active OS-level registration; and after register(A, foo)
followed by register(A, bar) — with the OS granting the registration of A,
as the claim's talk of an active registration presupposes — exactly one
binding exists for A, mapped to bar, and the OS holds exactly one active
registration for A. -/
theorem C3_uniqueness (st : St) (hreach : Reachable st) (env : Env) (A : String)
    (hcl : A ∉ env.claimed) (hth : A ∉ env.throwing) :
    (∀ B : String,
      (keys st.registeredHotkeys).count B ≤ 1 ∧ st.osRegs.count B ≤ 1) ∧
    objGet (registerGlobalHotkey env A "bar"
        (registerGlobalHotkey env A "foo" st)).registeredHotkeys A = some "bar" ∧
    (keys (registerGlobalHotkey env A "bar"
        (registerGlobalHotkey env A "foo" st)).registeredHotkeys).count A = 1 ∧
    (registerGlobalHotkey env A "bar"
        (registerGlobalHotkey env A "foo" st)).osRegs.count A = 1 := by
  obtain ⟨hk, ho⟩ := reachable_inv hreach
  refine ⟨?_, register_objGet_self _ _ _ _, ?_, ?_⟩
  · intro B
    exact ⟨List.nodup_iff_count_le_one.mp hk B, List.nodup_iff_count_le_one.mp ho B⟩
  · rw [register_registeredHotkeys, register_registeredHotkeys]
    exact count_keys_objSet _ _ _ (nodup_keys_objSet _ _ _ hk)
  · set s1 := registerGlobalHotkey env A "foo" st with hs1
    have htr : truthy (objGet s1.registeredHotkeys A) = true := by
      rw [hs1, register_objGet_self]
      rfl
    have hub := unregisterIfBound_of_truthy A s1 htr
    have hos : A ∉ (unregisterIfBound A s1).osRegs := by
      rw [hub]
      intro hmem
      have h2 := (List.mem_filter.mp hmem).2
      simp at h2
    have hstep := register_success env A "bar" s1 hth hcl hos
    rw [hstep, hub]
    show (s1.osRegs.filter (fun a => a != A) ++ [A]).count A = 1
    rw [List.count_append, count_filter_ne_self]
    simp [List.count_singleton]

/-- Claim C3, witness: the uniqueness statement evaluated from the fresh
state in the nominal environment, for a concrete accelerator. -/
theorem C3_witness :
    objGet (registerGlobalHotkey env0 "K" "bar"
        (registerGlobalHotkey env0 "K" "foo" st0)).registeredHotkeys "K" = some "bar" ∧
    (keys (registerGlobalHotkey env0 "K" "bar"
        (registerGlobalHotkey env0 "K" "foo" st0)).registeredHotkeys).count "K" = 1 ∧
    (registerGlobalHotkey env0 "K" "bar"
        (registerGlobalHotkey env0 "K" "foo" st0)).osRegs.count "K" = 1 :=
  (C3_uniqueness st0 Reachable.init env0 "K" (by decide) (by decide)).2

/-- Claim C4: when the OS-level registration call for the accelerator
returns failure — the accelerator is claimed by another application, or it
is still in the OS table and had no truthy bookkeeping entry to trigger
the preceding release — and the control surface is live, then exactly one
hotkey-mode notification carrying the in-window mode, the accelerator and
the action is delivered to the control surface, and the binding is
nevertheless present in the registry bookkeeping afterwards. -/
theorem C4_failure_fallback (env : Env) (accelerator action : String) (st : St)
    (hth : accelerator ∉ env.throwing)
    (hlive : env.controlLive = true)
    (hfail : accelerator ∈ env.claimed ∨
      (truthy (objGet st.registeredHotkeys accelerator) = false ∧
        accelerator ∈ st.osRegs)) :
    (registerGlobalHotkey env accelerator action st).sent
      = st.sent ++ [Msg.hotkeyMode accelerator action] ∧
    objGet (registerGlobalHotkey env accelerator action st).registeredHotkeys accelerator
      = some action := by
  refine ⟨?_, register_objGet_self env accelerator action st⟩
  have hcond : accelerator ∈ env.claimed ∨
      accelerator ∈ (unregisterIfBound accelerator st).osRegs := by
    rcases hfail with h1 | ⟨h2, h3⟩
    · exact Or.inl h1
    · refine Or.inr ?_
      unfold unregisterIfBound
      rw [h2]
      simpa using h3
  simp only [registerGlobalHotkey, if_neg hth, if_pos hcond, hlive]
  simp [unregisterIfBound_sent]

/-- Claim C4, witness: the fallback statement evaluated in the concrete
environment where another application claims the accelerator. -/
theorem C4_witness :
    (registerGlobalHotkey envFail "A" "play" st0).sent = [Msg.hotkeyMode "A" "play"] ∧
    objGet (registerGlobalHotkey envFail "A" "play" st0).registeredHotkeys "A"
      = some "play" :=
  C4_failure_fallback envFail "A" "play" st0 (by decide) rfl (Or.inl (by decide))

/-- Claim C5: bulk replacement first releases the OS registration of every
currently bound accelerator and resets the bookkeeping; pairs whose hotkey
string is empty are skipped with no registration attempt and no error; so
an empty map leaves the registry empty, and the play/stop example binds
exactly the translated accelerator for stop. -/
theorem C5_registerAll (env : Env) (st : St) (action : String)
    (rest : List (String × String)) :
    (registerAllHotkeys env [] st).registeredHotkeys = [] ∧
    (registerAllHotkeys env [] st).osRegs
      = st.osRegs.filter (fun a => !((keys st.registeredHotkeys).contains a)) ∧
    registerAllHotkeys env ((action, "") :: rest) st = registerAllHotkeys env rest st ∧
    (registerAllHotkeys env [("play", ""), ("stop", "Ctrl + S")] st).registeredHotkeys
      = [("CommandOrControl+S", "stop")] := by
  refine ⟨rfl, rfl, rfl, ?_⟩
  have hstep : registerAllHotkeys env [("play", ""), ("stop", "Ctrl + S")] st
      = registerGlobalHotkey env "CommandOrControl+S" "stop"
          { st with
              osRegs := st.osRegs.filter
                (fun a => !((keys st.registeredHotkeys).contains a)),
              registeredHotkeys := [] } := by
    rfl
  rw [hstep, register_registeredHotkeys_of_empty]
  rfl

theorem isPrefixOf_mem (p l : List Char) (h : p.isPrefixOf l = true) :
    ∀ c ∈ p, c ∈ l := by
  induction p generalizing l with
  | nil =>
    intro c hc
    simp at hc
  | cons a p' ih =>
    cases l with
    | nil => simp [List.isPrefixOf] at h
    | cons b l' =>
      simp only [List.isPrefixOf, Bool.and_eq_true, beq_iff_eq] at h
      intro c hc
      rcases List.mem_cons.mp hc with h1 | h2
      · rw [h1, h.1]
        exact List.mem_cons_self _ _
      · exact List.mem_cons_of_mem _ (ih l' h.2 c h2)

theorem containsSub_mem (pat l : List Char) (h : containsSub pat l = true) :
    ∀ c ∈ pat, c ∈ l := by
  induction l with
  | nil =>
    intro c hc
    have hp : pat = [] := by
      simpa [containsSub, List.isEmpty_iff] using h
    rw [hp] at hc
    simp at hc
  | cons b l' ih =>
    intro c hc
    simp only [containsSub, Bool.or_eq_true] at h
    rcases h with h1 | h2
    · exact isPrefixOf_mem _ _ h1 c hc
    · exact List.mem_cons_of_mem _ (ih h2 c hc)

theorem replAux_of_not_contains (pat rep : List Char) (n : Nat) (l : List Char)
    (h : containsSub pat l = false) : replAux pat rep n l = l := by
  induction n generalizing l with
  | zero => rfl
  | succ n ih =>
    cases l with
    | nil => rfl
    | cons c cs =>
      have h' : (pat.isPrefixOf (c :: cs) || containsSub pat cs) = false := h
      have h1 : pat.isPrefixOf (c :: cs) = false := by
        cases hp : pat.isPrefixOf (c :: cs)
        · rfl
        · rw [hp] at h'
          simp at h'
      have h2 : containsSub pat cs = false := by
        cases hp : containsSub pat cs
        · rfl
        · rw [hp] at h'
          simp at h'
      simp only [replAux]
      simp [h1, ih cs h2]

theorem replaceAllSub_of_not_contains (pat rep l : List Char)
    (h : containsSub pat l = false) : replaceAllSub pat rep l = l :=
  replAux_of_not_contains pat rep l.length l h

theorem mem_stripWs (l : List Char) (c : Char) (h : c ∈ stripWs l) :
    isJsWs c = false := by
  have h2 := (List.mem_filter.mp h).2
  simpa using h2

theorem stripWs_of_no_ws (l : List Char) (h : ∀ c ∈ l, isJsWs c = false) :
    stripWs l = l := by
  unfold stripWs
  rw [List.filter_eq_self]
  intro a ha
  simp [h a ha]

/-- Claim C6, counterexample: the translator applied to its own non-null
output is not always that output: stripping interior whitespace can
manufacture a fresh Ctrl token, and an all-whitespace input translates to
the empty string, which a second application turns into null. -/
theorem C6_counterexample :
    convertToElectronAccelerator (some "Ct rl") = some "Ctrl" ∧
    convertToElectronAccelerator (convertToElectronAccelerator (some "Ct rl"))
      = some "CommandOrControl" ∧
    convertToElectronAccelerator (some " ") = some "" ∧
    convertToElectronAccelerator (convertToElectronAccelerator (some " ")) = none := by
  decide

/-- Claim C6 (amended): applying the translator to its own output yields
that output again whenever the output is non-empty and contains neither
Ctrl nor Meta as a substring; outputs violating that proviso are a fixed
point of none of the four replacement stages and the idempotence equation
can fail on them. -/
theorem C6_idempotent_on_clean_output (s t : String)
    (h : convertToElectronAccelerator (some s) = some t)
    (hne : t ≠ "")
    (hc : containsSub ("Ctrl".data) t.data = false)
    (hm : containsSub ("Meta".data) t.data = false) :
    convertToElectronAccelerator (some t) = some t := by
  have hkey : ∃ X : List Char, t.data = stripWs X := by
    by_cases hs : s = ""
    · rw [hs] at h
      simp [convertToElectronAccelerator] at h
    · refine ⟨replaceAllSub (" + ".data) ("+".data)
        (replaceAllSub ("Meta".data) ("Super".data)
          (replaceAllSub ("Ctrl".data) ("CommandOrControl".data) s.data)), ?_⟩
      have h' := h
      simp only [convertToElectronAccelerator, if_neg hs] at h'
      have h2 := Option.some.inj h'
      rw [← h2]
  obtain ⟨X, hX⟩ := hkey
  have hnows : ∀ c ∈ t.data, isJsWs c = false := by
    intro c hcmem
    rw [hX] at hcmem
    exact mem_stripWs X c hcmem
  have hplus : containsSub (" + ".data) t.data = false := by
    cases hcs : containsSub (" + ".data) t.data
    · rfl
    · have hsp : (' ' : Char) ∈ t.data :=
        containsSub_mem _ _ hcs ' ' (by decide)
      have hws := hnows ' ' hsp
      simp [isJsWs] at hws
  simp only [convertToElectronAccelerator, if_neg hne]
  rw [replaceAllSub_of_not_contains _ _ _ hc,
    replaceAllSub_of_not_contains _ _ _ hm,
    replaceAllSub_of_not_contains _ _ _ hplus,
    stripWs_of_no_ws _ hnows]

/-- Claim C6, witness: the amended idempotence statement evaluated at a
concrete input whose output is canonical. -/
theorem C6_witness :
    convertToElectronAccelerator (some "CommandOrControl+K")
      = some "CommandOrControl+K" :=
  C6_idempotent_on_clean_output "Ctrl + K" "CommandOrControl+K"
    (by decide) (by decide) (by decide) (by decide)

/-- Claim C7: the translator returns null exactly when its input is absent
or empty, and on "Ctrl + Shift + K" it produces the
primary-modifier-substituted, separator-collapsed, whitespace-free
canonical form "CommandOrControl+Shift+K". -/
theorem C7_translator :
    convertToElectronAccelerator none = none ∧
    (∀ s : String, convertToElectronAccelerator (some s) = none ↔ s = "") ∧
    convertToElectronAccelerator (some "Ctrl + Shift + K")
      = some "CommandOrControl+Shift+K" := by
  refine ⟨rfl, ?_, by decide⟩
  intro s
  constructor
  · intro h
    by_contra hne
    simp [convertToElectronAccelerator, hne] at h
  · intro h
    simp [convertToElectronAccelerator, h]
